import Mathlib

/-!
# Verification of `cryptopen::pkey::rsa_key` (libcryptoplus)

A shallow embedding of `src/include/cryptoplus/pkey/rsa_key.hpp`: the
`rsa_key` handle (a `boost::shared_ptr<RSA>` wrapper), its constructors,
loaders, equality operators, blinding toggles, and the cryptographic
operations (`private_encrypt`/`public_decrypt`, `sign`/`verify`, `size`,
`check`).  The header forwards the cryptographic work to OpenSSL
(`RSA_private_encrypt`, `RSA_sign`, `RSA_size`, `PEM_read_*`, ...); those
collaborators, and the out-of-line member definitions of `rsa_key.cpp`,
are modelled from the specification's interface contracts (PKCS#1 v1.5
padding over big-endian byte strings, modular exponentiation, PEM format
dispatch), as their doc comments note.

Bytes are natural numbers below 256; byte strings are `List Nat`
(big-endian, most significant byte first, as in `BN_bn2bin`).
-/

namespace Cryptoplus

set_option maxRecDepth 16000

/-- Modelled from the spec: OpenSSL's modular exponentiation
(`BN_mod_exp`), square-and-multiply on naturals.  The first argument is
fuel (any bound `≥ b` works); recursion halves the exponent. -/
def powModAux (a : Nat) : Nat → Nat → Nat → Nat
  | 0, _, n => 1 % n
  | fuel + 1, b, n =>
    if b = 0 then 1 % n
    else
      let r := powModAux a fuel (b / 2) n
      if b % 2 = 0 then r * r % n else r * r % n * a % n

/-- `powMod a b n = a ^ b % n`, computed by square-and-multiply. -/
def powMod (a b n : Nat) : Nat := powModAux a b b n

theorem powModAux_eq (a : Nat) :
    ∀ (fuel b n : Nat), b ≤ fuel → powModAux a fuel b n = a ^ b % n := by
  intro fuel
  induction fuel with
  | zero =>
    intro b n hb
    have : b = 0 := Nat.le_zero.mp hb
    simp [powModAux, this]
  | succ fuel ih =>
    intro b n hb
    by_cases h0 : b = 0
    · simp [powModAux, h0]
    · have hhalf : b / 2 ≤ fuel := by omega
      have hr := ih (b / 2) n hhalf
      by_cases hpar : b % 2 = 0
      · have hb2 : b / 2 + b / 2 = b := by omega
        simp only [powModAux, if_neg h0, if_pos hpar, hr]
        rw [← Nat.mul_mod, ← pow_add, hb2]
      · have hb2 : b / 2 + b / 2 + 1 = b := by omega
        simp only [powModAux, if_neg h0, if_neg hpar, hr]
        rw [← Nat.mul_mod, Nat.mod_mul_mod, ← pow_add, ← pow_succ, hb2]

theorem powMod_eq (a b n : Nat) : powMod a b n = a ^ b % n :=
  powModAux_eq a b b n le_rfl

/-- Modelled from the spec: OpenSSL's `BN_num_bits`, computed with fuel
(the number itself bounds the bit count). -/
def bitLenAux : Nat → Nat → Nat
  | 0, _ => 0
  | fuel + 1, n => if n = 0 then 0 else bitLenAux fuel (n / 2) + 1

/-- The bit length of a natural number (`BN_num_bits`). -/
def bitLen (n : Nat) : Nat := bitLenAux n n

theorem bitLenAux_zero (fuel : Nat) : bitLenAux fuel 0 = 0 := by
  cases fuel <;> rfl

theorem bitLenAux_sandwich :
    ∀ (fuel n : Nat), n ≤ fuel → 0 < n →
      2 ^ (bitLenAux fuel n - 1) ≤ n ∧ n < 2 ^ bitLenAux fuel n := by
  intro fuel
  induction fuel with
  | zero => intro n hn h0; omega
  | succ fuel ih =>
    intro n hn h0
    have hne : n ≠ 0 := by omega
    simp only [bitLenAux, if_neg hne]
    by_cases hhalf : n / 2 = 0
    · have h1 : n = 1 := by omega
      subst h1
      rw [show (1 : Nat) / 2 = 0 from rfl, bitLenAux_zero]
      norm_num
    · have hle : n / 2 ≤ fuel := by omega
      have hpos : 0 < n / 2 := Nat.pos_of_ne_zero hhalf
      obtain ⟨ihl, ihr⟩ := ih (n / 2) hle hpos
      set r := bitLenAux fuel (n / 2) with hr
      have hr1 : 1 ≤ r := by
        by_contra h
        have : r = 0 := by omega
        rw [this] at ihr
        omega
      constructor
      · have : 2 ^ (r + 1 - 1) = 2 * 2 ^ (r - 1) := by
          rw [Nat.add_sub_cancel]
          conv_lhs => rw [show r = (r - 1) + 1 by omega]
          rw [pow_succ]
          ring
        rw [this]
        omega
      · have : 2 ^ (r + 1) = 2 * 2 ^ r := by rw [pow_succ]; ring
        rw [this]
        omega

theorem bitLen_sandwich (n : Nat) (h0 : 0 < n) :
    2 ^ (bitLen n - 1) ≤ n ∧ n < 2 ^ bitLen n :=
  bitLenAux_sandwich n n le_rfl h0

/-- `RSA_size`: the modulus size in bytes, `BN_num_bytes(n) =
(BN_num_bits(n) + 7) / 8`.  Modelled from the spec ("the modulus size in
bytes ... `ceil(modulus_bits / 8)`"). -/
def rsaSize (n : Nat) : Nat := (bitLen n + 7) / 8

/-- `OS2IP`: a big-endian byte string as a natural number (OpenSSL's
`BN_bin2bn`). -/
def os2ip : List Nat → Nat
  | [] => 0
  | b :: rest => b * 256 ^ rest.length + os2ip rest

/-- `I2OSP`: a natural number as a big-endian byte string of fixed width
`k` (OpenSSL's `BN_bn2binpad`). -/
def i2osp : Nat → Nat → List Nat
  | 0, _ => []
  | k + 1, x => x / 256 ^ k :: i2osp k (x % 256 ^ k)

theorem os2ip_lt (L : List Nat) (h : ∀ b ∈ L, b < 256) :
    os2ip L < 256 ^ L.length := by
  induction L with
  | nil => simp [os2ip]
  | cons b rest ih =>
    have hb : b < 256 := h b (List.mem_cons_self b rest)
    have hrest := ih fun x hx => h x (List.mem_cons_of_mem _ hx)
    simp only [os2ip, List.length_cons, pow_succ]
    have hb1 : b + 1 ≤ 256 := hb
    calc b * 256 ^ rest.length + os2ip rest
        < b * 256 ^ rest.length + 256 ^ rest.length := by omega
      _ = (b + 1) * 256 ^ rest.length := by ring
      _ ≤ 256 * 256 ^ rest.length := by
          exact Nat.mul_le_mul_right _ hb1
      _ = 256 ^ rest.length * 256 := by ring

theorem i2osp_length (k x : Nat) : (i2osp k x).length = k := by
  induction k generalizing x with
  | zero => simp [i2osp]
  | succ k ih => simp [i2osp, ih]

theorem os2ip_i2osp (k x : Nat) (h : x < 256 ^ k) : os2ip (i2osp k x) = x := by
  induction k generalizing x with
  | zero =>
    simp only [pow_zero, Nat.lt_one_iff] at h
    simp [i2osp, os2ip, h]
  | succ k ih =>
    have hmod : x % 256 ^ k < 256 ^ k :=
      Nat.mod_lt _ (pow_pos (by norm_num) k)
    simp only [i2osp, os2ip, i2osp_length, ih (x % 256 ^ k) hmod]
    exact Nat.div_add_mod' x (256 ^ k)

theorem i2osp_os2ip (L : List Nat) (h : ∀ b ∈ L, b < 256) :
    i2osp L.length (os2ip L) = L := by
  induction L with
  | nil => simp [i2osp, os2ip]
  | cons b rest ih =>
    have hb : b < 256 := h b (List.mem_cons_self b rest)
    have hrb : ∀ x ∈ rest, x < 256 := fun x hx => h x (List.mem_cons_of_mem _ hx)
    have hrest := ih hrb
    have hlt : os2ip rest < 256 ^ rest.length := os2ip_lt rest hrb
    have hq : 0 < 256 ^ rest.length := pow_pos (by norm_num) _
    simp only [List.length_cons, i2osp, os2ip]
    congr 1
    · rw [Nat.mul_comm b, Nat.mul_add_div hq, Nat.div_eq_of_lt hlt]
      omega
    · rw [Nat.mul_add_mod', Nat.mod_eq_of_lt hlt, hrest]

theorem i2osp_os2ip_of_length (k : Nat) (L : List Nat) (hk : L.length = k)
    (h : ∀ b ∈ L, b < 256) : i2osp k (os2ip L) = L := by
  subst hk
  exact i2osp_os2ip L h

/-- Modelled from the spec: PKCS#1 v1.5 block-type-1 padding (the scheme
`RSA_private_encrypt`/`RSA_sign` use, "for the commonly used scheme, input
must be at most `size() − 11` bytes"):
`EM = 00 || 01 || FF .. FF || 00 || M`, `k` bytes in total. -/
def pkcs1Pad1 (k : Nat) (M : List Nat) : List Nat :=
  0 :: 1 :: (List.replicate (k - M.length - 3) 255 ++ (0 :: M))

/-- Scan the `FF` padding string, counting the padding bytes; at the
`00` separator the payload follows.  At least eight `FF` bytes are
required, as in `RSA_padding_check_PKCS1_type_1`. -/
def stripPadding : List Nat → Nat → Option (List Nat)
  | [], _ => none
  | 0 :: rest, count => if 8 ≤ count then some rest else none
  | 255 :: rest, count => stripPadding rest (count + 1)
  | _ :: _, _ => none

/-- Modelled from the spec: PKCS#1 v1.5 block-type-1 padding check
(`RSA_padding_check_PKCS1_type_1`): the block must read
`00 || 01 || FF .. FF || 00 || M` with at least eight `FF` bytes;
`none` is a padding-check failure. -/
def pkcs1Unpad1 : List Nat → Option (List Nat)
  | 0 :: 1 :: rest => stripPadding rest 0
  | _ => none

theorem pkcs1Pad1_length (k : Nat) (M : List Nat) (h : M.length + 3 ≤ k) :
    (pkcs1Pad1 k M).length = k := by
  simp [pkcs1Pad1]
  omega

theorem pkcs1Pad1_bytes (k : Nat) (M : List Nat) (hM : ∀ b ∈ M, b < 256) :
    ∀ b ∈ pkcs1Pad1 k M, b < 256 := by
  intro b hb
  simp only [pkcs1Pad1, List.mem_cons, List.mem_append, List.mem_replicate] at hb
  rcases hb with h | h | ⟨_, h⟩ | h | h
  · omega
  · omega
  · omega
  · omega
  · exact hM b h

theorem stripPadding_replicate (M : List Nat) :
    ∀ (p c : Nat), 8 ≤ p + c →
      stripPadding (List.replicate p 255 ++ (0 :: M)) c = some M := by
  intro p
  induction p with
  | zero =>
    intro c hc
    simp only [List.replicate, List.nil_append, stripPadding]
    rw [if_pos (by omega)]
  | succ p ih =>
    intro c hc
    simp only [List.replicate, List.cons_append, stripPadding]
    exact ih (c + 1) (by omega)

theorem pkcs1Unpad1_pad1 (k : Nat) (M : List Nat) (h : M.length + 11 ≤ k) :
    pkcs1Unpad1 (pkcs1Pad1 k M) = some M := by
  simp only [pkcs1Pad1, pkcs1Unpad1]
  exact stripPadding_replicate M (k - M.length - 3) 0 (by omega)

theorem pow_modEq_self_of_prime {p : ℕ} (hp : p.Prime) {k : ℕ} (hk1 : 0 < k)
    (hk : (p - 1) ∣ (k - 1)) (m : ℕ) : m ^ k ≡ m [MOD p] := by
  haveI : Fact p.Prime := ⟨hp⟩
  rw [← ZMod.natCast_eq_natCast_iff]
  push_cast
  obtain ⟨t, ht⟩ := hk
  have hkt : k = (p - 1) * t + 1 := by omega
  by_cases h0 : (m : ZMod p) = 0
  · rw [h0, zero_pow (by omega)]
  · rw [hkt, pow_add, pow_one, pow_mul, ZMod.pow_card_sub_one_eq_one h0,
      one_pow, one_mul]

theorem rsa_pow_roundtrip {p q e d : ℕ} (hp : p.Prime) (hq : q.Prime)
    (hpq : p ≠ q) (he : 0 < e) (hd : 0 < d)
    (hed : e * d ≡ 1 [MOD (p - 1) * (q - 1)]) (m : ℕ) :
    m ^ (d * e) ≡ m [MOD p * q] := by
  have hed1 : 1 ≤ e * d := Nat.one_le_iff_ne_zero.mpr (by positivity)
  have hdvd : (p - 1) * (q - 1) ∣ e * d - 1 :=
    (Nat.modEq_iff_dvd' hed1).mp hed.symm
  have hde : 0 < d * e := by positivity
  have hdvd' : e * d - 1 = d * e - 1 := by rw [Nat.mul_comm]
  have hmodp : m ^ (d * e) ≡ m [MOD p] :=
    pow_modEq_self_of_prime hp hde
      (dvd_trans (dvd_mul_right (p - 1) (q - 1)) (hdvd' ▸ hdvd)) m
  have hmodq : m ^ (d * e) ≡ m [MOD q] :=
    pow_modEq_self_of_prime hq hde
      (dvd_trans (dvd_mul_left (q - 1) (p - 1)) (hdvd' ▸ hdvd)) m
  have hco : Nat.Coprime p q := (Nat.coprime_primes hp hq).mpr hpq
  exact (Nat.modEq_and_modEq_iff_modEq_mul hco).mp ⟨hmodp, hmodq⟩

theorem rsa_roundtrip_num {p q e d n m : ℕ} (hn : n = p * q)
    (hp : p.Prime) (hq : q.Prime) (hpq : p ≠ q) (he : 0 < e) (hd : 0 < d)
    (hed : e * d ≡ 1 [MOD (p - 1) * (q - 1)]) (hm : m < n) :
    (m ^ d % n) ^ e % n = m := by
  have h : m ^ (d * e) % n = m % n := hn ▸ rsa_pow_roundtrip hp hq hpq he hd hed m
  calc (m ^ d % n) ^ e % n = (m ^ d) ^ e % n := by rw [← Nat.pow_mod]
    _ = m ^ (d * e) % n := by rw [← pow_mul]
    _ = m % n := h
    _ = m := Nat.mod_eq_of_lt hm

theorem rsaSize_bounds (n : Nat) (h0 : 0 < n) :
    256 ^ (rsaSize n - 1) ≤ n ∧ n < 256 ^ rsaSize n := by
  obtain ⟨hl, hr⟩ := bitLen_sandwich n h0
  have hb1 : 1 ≤ bitLen n := by
    by_contra h
    have hz : bitLen n = 0 := by omega
    rw [hz] at hr
    simp at hr
    omega
  have h28 : (256 : ℕ) = 2 ^ 8 := by norm_num
  constructor
  · calc 256 ^ (rsaSize n - 1) = 2 ^ (8 * (rsaSize n - 1)) := by
          rw [h28, ← pow_mul]
      _ ≤ 2 ^ (bitLen n - 1) := by
          apply Nat.pow_le_pow_right (by omega)
          show 8 * ((bitLen n + 7) / 8 - 1) ≤ bitLen n - 1
          omega
      _ ≤ n := hl
  · calc n < 2 ^ bitLen n := hr
      _ ≤ 2 ^ (8 * rsaSize n) := by
          apply Nat.pow_le_pow_right (by omega)
          show bitLen n ≤ 8 * ((bitLen n + 7) / 8)
          omega
      _ = 256 ^ rsaSize n := by rw [h28, ← pow_mul]

/-- The structured failure kinds of the error taxonomy (§7):
`InvalidArgument`, `KeyDecodingError`, `InvalidKeyState`,
`CryptoOperationError`, `SigningError`, `VerificationError`,
`OperationError`, and the allocation failure of default construction. -/
inductive CryptoError where
  | invalidArgument
  | allocationError
  | keyGenerationError
  | keyDecodingError
  | invalidKeyState
  | cryptoOperationError
  | signingError
  | verificationError
  | operationError
deriving DecidableEq

/-- The numeric content of an OpenSSL `RSA` record: public modulus `n`
and exponent `e`, optional private components `d`, `p`, `q` and the CRT
exponents, and the blinding flag toggled by
`enable_blinding`/`disable_blinding`. -/
structure RSARecord where
  n : Nat
  e : Nat
  d : Option Nat
  p : Option Nat
  q : Option Nat
  dmp1 : Option Nat
  dmq1 : Option Nat
  blinding : Bool
deriving DecidableEq

/-- A well-formed private RSA key: private components present, the
modulus the product of two distinct primes, and the exponents mutually
inverse modulo `(p-1)(q-1)`. -/
def RSARecord.Valid (r : RSARecord) : Prop :=
  ∃ d p q, r.d = some d ∧ r.p = some p ∧ r.q = some q ∧
    p.Prime ∧ q.Prime ∧ p ≠ q ∧ r.n = p * q ∧ 0 < r.e ∧ 0 < d ∧
    r.e * d ≡ 1 [MOD (p - 1) * (q - 1)]

/-- `rsa_key::private_encrypt` (declared rsa_key.hpp lines 314–326;
modelled from the spec: the out-of-line definition forwards to
`RSA_private_encrypt` with PKCS#1 v1.5 padding, so the input must be at
most `size() − 11` bytes, and failure — oversized input or absent
private material — surfaces as a `CryptoOperationError`). -/
def private_encrypt (r : RSARecord) (buf : List Nat) :
    Except CryptoError (List Nat) :=
  match r.d with
  | none => .error .cryptoOperationError
  | some d =>
    if buf.length + 11 ≤ rsaSize r.n then
      .ok (i2osp (rsaSize r.n)
        (powMod (os2ip (pkcs1Pad1 (rsaSize r.n) buf)) d r.n))
    else .error .cryptoOperationError

/-- `rsa_key::public_decrypt` (declared rsa_key.hpp lines 328–340;
modelled from the spec: forwards to `RSA_public_decrypt`, which applies
the public exponent and checks the PKCS#1 v1.5 padding; malformed
ciphertext or a padding-check failure is a `CryptoOperationError`). -/
def public_decrypt (r : RSARecord) (buf : List Nat) :
    Except CryptoError (List Nat) :=
  if os2ip buf < r.n then
    match pkcs1Unpad1 (i2osp (rsaSize r.n) (powMod (os2ip buf) r.e r.n)) with
    | some m => .ok m
    | none => .error .cryptoOperationError
  else .error .cryptoOperationError

/-- Modelled from the spec: the DER `DigestInfo` prefix bytes and the
expected digest length for each recognized digest-algorithm NID
(`NID_md5 = 4`, `NID_sha1 = 64`, `NID_ripemd160 = 117`), as used by
`RSA_sign(3)`. -/
def digestInfo : Nat → Option (List Nat × Nat)
  | 4 => some ([48, 32, 48, 12, 6, 8, 42, 134, 72, 134, 247, 13, 2, 5,
      5, 0, 4, 16], 16)
  | 64 => some ([48, 33, 48, 9, 6, 5, 43, 14, 3, 2, 26, 5, 0, 4, 20], 20)
  | 117 => some ([48, 33, 48, 9, 6, 5, 43, 36, 3, 2, 1, 5, 0, 4, 20], 20)
  | _ => none

/-- `rsa_key::sign` (declared rsa_key.hpp lines 370–382; modelled from
the spec: forwards to `RSA_sign`, the PKCS#1 v1.5 signature of the
`DigestInfo` encoding of the caller-supplied digest; requires private
material and a recognized NID with a digest of the expected length). -/
def sign (r : RSARecord) (buf : List Nat) (type : Nat) :
    Except CryptoError (List Nat) :=
  match r.d, digestInfo type with
  | some d, some (pre, dlen) =>
    if buf.length = dlen ∧ (pre ++ buf).length + 11 ≤ rsaSize r.n then
      .ok (i2osp (rsaSize r.n)
        (powMod (os2ip (pkcs1Pad1 (rsaSize r.n) (pre ++ buf))) d r.n))
    else .error .signingError
  | _, _ => .error .signingError

/-- `rsa_key::verify` (declared rsa_key.hpp lines 397–408; modelled from
the spec: forwards to `RSA_verify` — the signature must be exactly
`size()` bytes, its public-exponent image must carry valid PKCS#1 v1.5
padding, and the payload must equal the expected `DigestInfo` encoding;
every mismatch is the same `VerificationError`). -/
def verify (r : RSARecord) (sig buf : List Nat) (type : Nat) :
    Except CryptoError Unit :=
  match digestInfo type with
  | some (pre, dlen) =>
    if sig.length = rsaSize r.n ∧ buf.length = dlen ∧ os2ip sig < r.n then
      match pkcs1Unpad1 (i2osp (rsaSize r.n) (powMod (os2ip sig) r.e r.n)) with
      | some t => if t = pre ++ buf then .ok () else .error .verificationError
      | none => .error .verificationError
    else .error .verificationError
  | none => .error .verificationError

/-- `rsa_key::sign<T>` (rsa_key.hpp lines 532–540): allocate a container
of `size()` zero bytes, sign into it, and resize it to the byte count
the buffer-based `sign` reports. -/
def sign_vec (r : RSARecord) (buf : List Nat) (type : Nat) :
    Except CryptoError (List Nat) :=
  match sign r buf type with
  | .ok s => .ok (List.take s.length (s ++ List.replicate (rsaSize r.n - s.length) 0))
  | .error err => .error err

/-- Modelled from the spec: `RSA_check_key` returns a positive value
exactly when the key carries private material whose parameters are
internally consistent (modulus the product of the primes, exponents
mutually inverse, CRT exponents consistent with `d`); it is nonpositive
when a component is absent or inconsistent. -/
def RSA_check_key (r : RSARecord) : Int :=
  match r.d, r.p, r.q, r.dmp1, r.dmq1 with
  | some d, some p, some q, some dp, some dq =>
    if r.n = p * q ∧
        r.e * d % ((p - 1) * (q - 1)) = 1 % ((p - 1) * (q - 1)) ∧
        dp = d % (p - 1) ∧ dq = d % (q - 1) then 1 else 0
  | _, _, _, _, _ => -1

/-- `rsa_key::check` (rsa_key.hpp lines 520–523):
`error::throw_error_if_not(RSA_check_key(m_rsa.get()) > 0)`; the thrown
failure is the `InvalidKeyState` kind of §7. -/
def check (r : RSARecord) : Except CryptoError Unit :=
  if RSA_check_key r > 0 then .ok () else .error .invalidKeyState

/-- A pointer to an `RSA` record (the address a `boost::shared_ptr<RSA>`
holds). -/
abbrev Ptr := Nat

/-- The store of `RSA` records: what each pointer designates. -/
abbrev Heap := Ptr → RSARecord

/-- The `rsa_key` handle (rsa_key.hpp lines 71–415): its one data member
is `boost::shared_ptr<RSA> m_rsa` (line 414).  Copying the handle copies
the `shared_ptr`, so a copy holds the same pointer. -/
structure rsa_key where
  m_rsa : Ptr
deriving DecidableEq

/-- `rsa_key::raw` (rsa_key.hpp lines 508–515): `return m_rsa.get()`. -/
def rsa_key.raw (k : rsa_key) : Ptr := k.m_rsa

/-- The implicitly generated copy constructor: a `shared_ptr` copy
references the same record. -/
def rsa_key.copy (k : rsa_key) : rsa_key := ⟨k.m_rsa⟩

/-- `operator==` (rsa_key.hpp lines 545–548):
`lhs.raw() == rhs.raw()`. -/
def rsaKeyEq (lhs rhs : rsa_key) : Bool := lhs.raw == rhs.raw

/-- `operator!=` (rsa_key.hpp lines 549–552):
`lhs.raw() != rhs.raw()`. -/
def rsaKeyNe (lhs rhs : rsa_key) : Bool := lhs.raw != rhs.raw

/-- Replace the record a pointer designates. -/
def heapUpdate (h : Heap) (at_ : Ptr) (r : RSARecord) : Heap :=
  fun x => if x = at_ then r else h x

/-- `rsa_key::enable_blinding` (rsa_key.hpp lines 500–503):
`error::throw_error_if_not(RSA_blinding_on(m_rsa.get(), ctx))`.
`RSA_blinding_on` is modelled from the spec: it sets the blinding flag
on the shared record, or fails with an `OperationError` when the
blinding state cannot be allocated (`allocOk = false`). -/
def enable_blinding (allocOk : Bool) (h : Heap) (k : rsa_key) :
    Except CryptoError Heap :=
  if allocOk then
    .ok (heapUpdate h k.m_rsa { h k.m_rsa with blinding := true })
  else .error .operationError

/-- `rsa_key::disable_blinding` (rsa_key.hpp lines 504–507):
`RSA_blinding_off(m_rsa.get())` — a void call with no error check, so
it always returns the updated heap. -/
def disable_blinding (h : Heap) (k : rsa_key) : Except CryptoError Heap :=
  .ok (heapUpdate h k.m_rsa { h k.m_rsa with blinding := false })

/-- Whether the record a handle references has blinding enabled — the
observation shared by every copy of the handle. -/
def blindingEnabled (h : Heap) (k : rsa_key) : Bool := (h k.m_rsa).blinding

/-- `rsa_key::rsa_key(RSA*)` (rsa_key.hpp lines 461–467): wrap a raw
pointer, `throw std::invalid_argument("rsa")` when it is null. -/
def rsa_key_from_raw : Option Ptr → Except CryptoError rsa_key
  | none => .error .invalidArgument
  | some ptr => .ok ⟨ptr⟩

/-- `rsa_key::rsa_key(boost::shared_ptr<RSA>)` (rsa_key.hpp lines
541–544): `error::throw_error_if_not(m_rsa)` — a null pointer raises the
failure the foreign error queue holds (`queueError`). -/
def rsa_key_from_shared (queueError : CryptoError) :
    Option Ptr → Except CryptoError rsa_key
  | none => .error queueError
  | some ptr => .ok ⟨ptr⟩

/-- `rsa_key::rsa_key()` (rsa_key.hpp lines 457–460): allocate a fresh
record with `RSA_new()` (`alloc` is its result) and fail with the
allocation error when it is null. -/
def rsa_key_default (alloc : Option Ptr) : Except CryptoError rsa_key :=
  match alloc with
  | none => .error .allocationError
  | some ptr => .ok ⟨ptr⟩

/-- `rsa_key::generate_private_key` (declared rsa_key.hpp line 93;
modelled from the spec, §4.1: the out-of-line definition runs the
underlying library's probabilistic prime search — `RSA_generate_key` —
whose outcome is the `genResult` argument here: the freshly allocated
record, or null "if the underlying primality search or record
allocation fails", in which case the operation fails with a
`KeyGenerationError` rather than yield a handle around an absent
record.  The progress callback only observes iteration counters and
cannot influence the outcome, so it is not modelled. -/
def generate_private_key (genResult : Option Ptr) : Except CryptoError rsa_key :=
  rsa_key_from_shared .keyGenerationError genResult

/-- The three mutually incompatible PEM format families of §4.2. -/
inductive PemFormat where
  | privateKey
  | publicKey
  | certPublicKey
deriving DecidableEq

/-- A byte stream handed to a loader, as the spec describes it: the
format that produced it, whether it is well-formed (not truncated or
corrupted), whether its material is passphrase-encrypted, whether the
available passphrase decrypts it, and the key record it encodes. -/
structure PemBlob where
  format : PemFormat
  wellFormed : Bool
  encrypted : Bool
  passphraseOk : Bool
  record : Ptr

/-- Modelled from the spec: `PEM_read_bio_RSAPrivateKey` — decodes only
well-formed private-key-format bytes whose passphrase (if any) checks
out; otherwise returns null (no format auto-detection). -/
def pemReadRSAPrivateKey (blob : PemBlob) : Option Ptr :=
  if blob.format = .privateKey ∧ blob.wellFormed = true ∧
      (blob.encrypted = true → blob.passphraseOk = true) then
    some blob.record
  else none

/-- Modelled from the spec: `PEM_read_bio_RSAPublicKey` — decodes only
well-formed public-key-format bytes; otherwise returns null (no format
auto-detection). -/
def pemReadRSAPublicKey (blob : PemBlob) : Option Ptr :=
  if blob.format = .publicKey ∧ blob.wellFormed = true then
    some blob.record
  else none

/-- Modelled from the spec: `PEM_read_bio_RSA_PUBKEY` — decodes only
well-formed certificate-style (`SubjectPublicKeyInfo`) bytes; otherwise
returns null (no format auto-detection). -/
def pemReadRSA_PUBKEY (blob : PemBlob) : Option Ptr :=
  if blob.format = .certPublicKey ∧ blob.wellFormed = true then
    some blob.record
  else none

/-- `rsa_key::from_private_key` (rsa_key.hpp lines 433–436): wrap the
parser's result through the `shared_ptr` constructor; the error queue
then holds the PEM decoding failure. -/
def from_private_key (blob : PemBlob) : Except CryptoError rsa_key :=
  rsa_key_from_shared .keyDecodingError (pemReadRSAPrivateKey blob)

/-- `rsa_key::from_public_key` (rsa_key.hpp lines 437–440). -/
def from_public_key (blob : PemBlob) : Except CryptoError rsa_key :=
  rsa_key_from_shared .keyDecodingError (pemReadRSAPublicKey blob)

/-- `rsa_key::from_certificate_public_key` (rsa_key.hpp lines
441–444). -/
def from_certificate_public_key (blob : PemBlob) : Except CryptoError rsa_key :=
  rsa_key_from_shared .keyDecodingError (pemReadRSA_PUBKEY blob)

theorem os2ip_cons_zero (L : List Nat) : os2ip (0 :: L) = os2ip L := by
  simp [os2ip]

theorem os2ip_pkcs1Pad1_lt (k : Nat) (M : List Nat) (hM : ∀ b ∈ M, b < 256)
    (h : M.length + 11 ≤ k) : os2ip (pkcs1Pad1 k M) < 256 ^ (k - 1) := by
  obtain ⟨tail, htail⟩ : ∃ tail, pkcs1Pad1 k M = 0 :: tail := ⟨_, rfl⟩
  have hlen : (0 :: tail).length = k := htail ▸ pkcs1Pad1_length k M (by omega)
  have hbytes : ∀ b ∈ 0 :: tail, b < 256 := htail ▸ pkcs1Pad1_bytes k M hM
  have htl : tail.length = k - 1 := by
    simp only [List.length_cons] at hlen
    omega
  rw [htail, os2ip_cons_zero]
  have hres := os2ip_lt tail fun b hb => hbytes b (List.mem_cons_of_mem 0 hb)
  rw [htl] at hres
  exact hres

set_option maxRecDepth 4000 in
/-- C1: for a key handle holding valid private material and any
plaintext `M` of at most `size() − 11` bytes, `private_encrypt` (PKCS#1
v1.5 padding) followed by `public_decrypt` on the same key returns
exactly `M`. -/
theorem private_encrypt_public_decrypt_roundtrip (r : RSARecord)
    (hv : r.Valid) (M : List Nat) (hM : ∀ b ∈ M, b < 256)
    (hlen : M.length + 11 ≤ rsaSize r.n) :
    (private_encrypt r M).bind (fun c => public_decrypt r c) = .ok M := by
  obtain ⟨d, p, q, hd, hpm, hqm, hp, hq, hpq, hn, he, hd0, hed⟩ := hv
  have hn0 : 0 < r.n := by rw [hn]; exact Nat.mul_pos hp.pos hq.pos
  obtain ⟨hlow, hhigh⟩ := rsaSize_bounds r.n hn0
  have hmlt : os2ip (pkcs1Pad1 (rsaSize r.n) M) < r.n :=
    lt_of_lt_of_le (os2ip_pkcs1Pad1_lt _ M hM hlen) hlow
  have hc_lt : powMod (os2ip (pkcs1Pad1 (rsaSize r.n) M)) d r.n < r.n := by
    rw [powMod_eq]
    exact Nat.mod_lt _ hn0
  have henc : private_encrypt r M
      = .ok (i2osp (rsaSize r.n)
          (powMod (os2ip (pkcs1Pad1 (rsaSize r.n) M)) d r.n)) := by
    simp only [private_encrypt, hd]
    rw [if_pos hlen]
  rw [henc]
  show public_decrypt r
    (i2osp (rsaSize r.n) (powMod (os2ip (pkcs1Pad1 (rsaSize r.n) M)) d r.n))
      = .ok M
  have h1 : os2ip (i2osp (rsaSize r.n)
      (powMod (os2ip (pkcs1Pad1 (rsaSize r.n) M)) d r.n))
        = powMod (os2ip (pkcs1Pad1 (rsaSize r.n) M)) d r.n :=
    os2ip_i2osp _ _ (lt_trans hc_lt hhigh)
  have h2 : powMod (powMod (os2ip (pkcs1Pad1 (rsaSize r.n) M)) d r.n) r.e r.n
      = os2ip (pkcs1Pad1 (rsaSize r.n) M) := by
    rw [powMod_eq, powMod_eq]
    exact rsa_roundtrip_num hn hp hq hpq he hd0 hed hmlt
  have h3 : i2osp (rsaSize r.n) (os2ip (pkcs1Pad1 (rsaSize r.n) M))
      = pkcs1Pad1 (rsaSize r.n) M :=
    i2osp_os2ip_of_length _ _ (pkcs1Pad1_length (rsaSize r.n) M (by omega))
      (pkcs1Pad1_bytes _ M hM)
  simp only [public_decrypt, h1]
  rw [if_pos hc_lt, h2, h3, pkcs1Unpad1_pad1 _ _ hlen]

theorem zmod_pow_eq_one_iff (p a k : Nat) :
    ((a : ZMod p)) ^ k = 1 ↔ powMod a k p = 1 % p := by
  rw [powMod_eq]
  constructor
  · intro h
    have hcast : ((a ^ k : ℕ) : ZMod p) = ((1 : ℕ) : ZMod p) := by
      push_cast
      rw [h]
    exact (ZMod.natCast_eq_natCast_iff _ _ _).mp hcast
  · intro h
    have hcast := (ZMod.natCast_eq_natCast_iff (a ^ k) 1 p).mpr h
    push_cast at hcast
    exact hcast

/-- A Pratt/Lucas certificate for a Proth-form prime `p = 2^s * c + 1`
with `c` prime: a witness `a` whose order modulo `p` is `p - 1`. -/
theorem prime_of_lucas_proth (p c s a : Nat) (hc : c.Prime)
    (hp1 : p - 1 = 2 ^ s * c)
    (h1 : powMod a (p - 1) p = 1 % p)
    (h2 : powMod a ((p - 1) / 2) p ≠ 1 % p)
    (h3 : powMod a ((p - 1) / c) p ≠ 1 % p) : p.Prime := by
  apply lucas_primality p (a : ZMod p)
  · exact (zmod_pow_eq_one_iff p a (p - 1)).mpr h1
  · intro q hq hqdvd
    have hq2c : q = 2 ∨ q = c := by
      rw [hp1] at hqdvd
      rcases (Nat.Prime.dvd_mul hq).mp hqdvd with h | h
      · exact Or.inl
          ((Nat.prime_dvd_prime_iff_eq hq Nat.prime_two).mp (hq.dvd_of_dvd_pow h))
      · exact Or.inr ((Nat.prime_dvd_prime_iff_eq hq hc).mp h)
    rcases hq2c with rfl | rfl
    · intro hcon
      exact h2 ((zmod_pow_eq_one_iff p a _).mp hcon)
    · intro hcon
      exact h3 ((zmod_pow_eq_one_iff p a _).mp hcon)

/-- A 184-bit Proth prime, `347 * 2^175 + 1`. -/
def demoP : Nat := 16617998521264482307823325575661165209865702356178436097

/-- A 185-bit Proth prime, `659 * 2^175 + 1`. -/
def demoQ : Nat := 31559830044706898676817209090376679750148408797468557313

/-- `demoP * demoQ`: a 368-bit (46-byte) RSA modulus. -/
def demoN : Nat := 524461209014297622774581246591414127012772905768078349456623481235097195828422621181833197555365882275152527361

/-- The decryption exponent inverse to 65537 modulo
`(demoP - 1) * (demoQ - 1)`. -/
def demoD : Nat := 380447843779067141985845660378143934148866086533106684914276130636783959648568658544752229393100363930108100609

theorem demoP_prime : Nat.Prime demoP := by
  apply prime_of_lucas_proth demoP 347 175 3 (by norm_num)
  · decide
  · decide
  · decide
  · decide

theorem demoQ_prime : Nat.Prime demoQ := by
  apply prime_of_lucas_proth demoQ 659 175 3 (by norm_num)
  · decide
  · decide
  · decide
  · decide

/-- A concrete private-key record over `demoN`. -/
def demoKey : RSARecord :=
  ⟨demoN, 65537, some demoD, some demoP, some demoQ, none, none, false⟩

theorem demoKey_valid : demoKey.Valid :=
  ⟨demoD, demoP, demoQ, rfl, rfl, rfl, demoP_prime, demoQ_prime,
    by decide, by decide, by decide, by decide,
    show 65537 * demoD % ((demoP - 1) * (demoQ - 1))
        = 1 % ((demoP - 1) * (demoQ - 1)) by decide⟩

/-- A five-byte plaintext. -/
def demoMsg : List Nat := [72, 101, 108, 108, 111]

/-- C1 at a concrete input: the 368-bit demo key round-trips the
five-byte plaintext through `private_encrypt` then `public_decrypt`. -/
theorem private_encrypt_public_decrypt_roundtrip_witness :
    (private_encrypt demoKey demoMsg).bind (fun c => public_decrypt demoKey c)
      = .ok demoMsg :=
  private_encrypt_public_decrypt_roundtrip demoKey demoKey_valid demoMsg
    (by decide) (by decide)

theorem digestInfo_bytes (t : Nat) (pre : List Nat) (dlen : Nat)
    (h : digestInfo t = some (pre, dlen)) : ∀ b ∈ pre, b < 256 := by
  unfold digestInfo at h
  split at h <;> cases h <;> decide

set_option maxRecDepth 4000 in
/-- C5: for a key handle holding valid private material, a recognized
digest-algorithm id, and a digest of the length that algorithm expects,
`verify (sign D alg) D alg` on the same key succeeds. -/
theorem sign_verify_roundtrip (r : RSARecord) (hv : r.Valid)
    (D : List Nat) (hD : ∀ b ∈ D, b < 256) (type : Nat)
    (pre : List Nat) (dlen : Nat) (hinfo : digestInfo type = some (pre, dlen))
    (hDlen : D.length = dlen)
    (hk : pre.length + dlen + 11 ≤ rsaSize r.n) :
    (sign r D type).bind (fun s => verify r s D type) = .ok () := by
  obtain ⟨d, p, q, hd, hpm, hqm, hp, hq, hpq, hn, he, hd0, hed⟩ := hv
  have hn0 : 0 < r.n := by rw [hn]; exact Nat.mul_pos hp.pos hq.pos
  obtain ⟨hlow, hhigh⟩ := rsaSize_bounds r.n hn0
  have hT_bytes : ∀ b ∈ pre ++ D, b < 256 := by
    intro b hb
    rcases List.mem_append.mp hb with h | h
    · exact digestInfo_bytes type pre dlen hinfo b h
    · exact hD b h
  have hT_len : (pre ++ D).length + 11 ≤ rsaSize r.n := by
    simp only [List.length_append, hDlen]
    omega
  have hmlt : os2ip (pkcs1Pad1 (rsaSize r.n) (pre ++ D)) < r.n :=
    lt_of_lt_of_le (os2ip_pkcs1Pad1_lt _ _ hT_bytes hT_len) hlow
  have hc_lt : powMod (os2ip (pkcs1Pad1 (rsaSize r.n) (pre ++ D))) d r.n < r.n := by
    rw [powMod_eq]
    exact Nat.mod_lt _ hn0
  have hsig : sign r D type
      = .ok (i2osp (rsaSize r.n)
          (powMod (os2ip (pkcs1Pad1 (rsaSize r.n) (pre ++ D))) d r.n)) := by
    simp only [sign, hd, hinfo]
    rw [if_pos ⟨hDlen, hT_len⟩]
  rw [hsig]
  show verify r
    (i2osp (rsaSize r.n) (powMod (os2ip (pkcs1Pad1 (rsaSize r.n) (pre ++ D))) d r.n))
    D type = .ok ()
  have h1 : os2ip (i2osp (rsaSize r.n)
      (powMod (os2ip (pkcs1Pad1 (rsaSize r.n) (pre ++ D))) d r.n))
        = powMod (os2ip (pkcs1Pad1 (rsaSize r.n) (pre ++ D))) d r.n :=
    os2ip_i2osp _ _ (lt_trans hc_lt hhigh)
  have h2 : powMod
      (powMod (os2ip (pkcs1Pad1 (rsaSize r.n) (pre ++ D))) d r.n) r.e r.n
        = os2ip (pkcs1Pad1 (rsaSize r.n) (pre ++ D)) := by
    rw [powMod_eq, powMod_eq]
    exact rsa_roundtrip_num hn hp hq hpq he hd0 hed hmlt
  have h3 : i2osp (rsaSize r.n) (os2ip (pkcs1Pad1 (rsaSize r.n) (pre ++ D)))
      = pkcs1Pad1 (rsaSize r.n) (pre ++ D) :=
    i2osp_os2ip_of_length _ _ (pkcs1Pad1_length (rsaSize r.n) _ (by omega))
      (pkcs1Pad1_bytes _ _ hT_bytes)
  simp only [verify, hinfo, h1]
  rw [if_pos ⟨i2osp_length _ _, hDlen, hc_lt⟩, h2, h3,
    pkcs1Unpad1_pad1 _ _ hT_len]
  simp

theorem sign_ok_shape (r : RSARecord) (buf : List Nat) (type : Nat)
    (s : List Nat) (h : sign r buf type = .ok s) : s.length = rsaSize r.n := by
  unfold sign at h
  split at h
  · split at h
    · cases h
      exact i2osp_length _ _
    · cases h
  · cases h

/-- C6: a successful `sign` writes exactly `size()` bytes, and the
convenience overload `sign<T>` returns a container equal to (hence of
the same length as) what the buffer-based `sign` wrote. -/
theorem sign_size_and_vec (r : RSARecord) (buf : List Nat) (type : Nat) :
    Option.all (fun s => s.length == rsaSize r.n) (sign r buf type).toOption = true
      ∧ sign_vec r buf type = sign r buf type := by
  constructor
  · cases hs : sign r buf type with
    | ok s =>
      have := sign_ok_shape r buf type s hs
      simp [Except.toOption, Option.all, this]
    | error e => simp [Except.toOption, Option.all]
  · unfold sign_vec
    cases hs : sign r buf type with
    | ok s =>
      have hlen := sign_ok_shape r buf type s hs
      simp [List.take_left]
    | error e => rfl

/-- A 20-byte digest (the length `NID_sha1 = 64` expects). -/
def demoDigest : List Nat :=
  [218, 57, 163, 238, 94, 107, 75, 13, 50, 85,
   191, 239, 149, 96, 24, 144, 175, 216, 7, 9]

/-- C5 at a concrete input: signing the 20-byte digest with NID 64
(SHA-1) under the demo key and verifying the result succeeds. -/
theorem sign_verify_roundtrip_witness :
    (sign demoKey demoDigest 64).bind (fun s => verify demoKey s demoDigest 64)
      = .ok () :=
  sign_verify_roundtrip demoKey demoKey_valid demoDigest (by decide) 64 _ 20
    rfl (by decide) (by decide)

/-- C2: a key whose modulus has `N` bits reports `size() = ⌈N / 8⌉`
bytes — the spec's `ceil(modulus_bits / 8)` buffer-sizing contract. -/
theorem size_eq_ceil_bits (r : RSARecord) (N : Nat) (hbits : bitLen r.n = N) :
    rsaSize r.n = N ⌈/⌉ 8 := by
  rw [rsaSize, hbits, Nat.ceilDiv_eq_add_pred_div]
  omega

/-- C2 at a concrete input: the demo modulus has 368 bits, and `size()`
reports `⌈368 / 8⌉ = 46` bytes. -/
theorem size_eq_ceil_bits_witness : rsaSize demoKey.n = 368 ⌈/⌉ 8 :=
  size_eq_ceil_bits demoKey 368 (by decide)

/-- C3: a copy of a handle references the same record — the two compare
equal — and enabling blinding through either handle is observed through
the other. -/
theorem copy_shares_record (h : Heap) (k : rsa_key) (allocOk : Bool)
    (h1 h2 : Heap)
    (e1 : enable_blinding allocOk h k = .ok h1)
    (e2 : enable_blinding allocOk h (rsa_key.copy k) = .ok h2) :
    rsaKeyEq k (rsa_key.copy k) = true ∧
      blindingEnabled h1 (rsa_key.copy k) = true ∧
      blindingEnabled h2 k = true := by
  unfold enable_blinding at e1 e2
  by_cases ha : allocOk = true
  · rw [if_pos ha] at e1 e2
    cases e1
    cases e2
    refine ⟨?_, ?_, ?_⟩
    · simp [rsaKeyEq, rsa_key.copy, rsa_key.raw]
    · simp [blindingEnabled, heapUpdate, rsa_key.copy]
    · simp [blindingEnabled, heapUpdate, rsa_key.copy]
  · rw [if_neg ha] at e1
    cases e1

/-- A heap every pointer of which designates the demo record. -/
def demoHeap : Heap := fun _ => demoKey

/-- C3 at a concrete input: handle 7 and its copy compare equal, and
after enabling blinding through either, the other observes it. -/
theorem copy_shares_record_witness :
    rsaKeyEq ⟨7⟩ (rsa_key.copy ⟨7⟩) = true ∧
      blindingEnabled (heapUpdate demoHeap 7 { demoHeap 7 with blinding := true })
        (rsa_key.copy ⟨7⟩) = true ∧
      blindingEnabled (heapUpdate demoHeap 7 { demoHeap 7 with blinding := true })
        ⟨7⟩ = true :=
  copy_shares_record demoHeap ⟨7⟩ true _ _ rfl rfl

/-- C4: `operator==` is true exactly when the two handles reference the
same record and `operator!=` exactly when they do not — identity
equality: two handles whose records are equal as values still compare
unequal when their pointers differ. -/
theorem eq_iff_same_record :
    (∀ a b : rsa_key, (rsaKeyEq a b = true ↔ a.raw = b.raw) ∧
      (rsaKeyNe a b = true ↔ a.raw ≠ b.raw)) ∧
    (∃ (h : Heap) (a b : rsa_key),
      h a.raw = h b.raw ∧ rsaKeyEq a b = false) := by
  constructor
  · intro a b
    constructor
    · simp [rsaKeyEq]
    · simp [rsaKeyNe]
  · exact ⟨fun _ => demoKey, ⟨0⟩, ⟨1⟩, rfl, by decide⟩

theorem rsa_key_from_shared_ok (err : CryptoError) (o : Option Ptr)
    (k : rsa_key) (h : rsa_key_from_shared err o = .ok k) :
    o = some k.m_rsa := by
  cases o with
  | none => cases h
  | some ptr =>
    cases h
    rfl

/-- C7: no construction path yields a handle around an absent record —
wrapping a null raw pointer fails with `InvalidArgument`, the
shared-pointer constructor, default construction, the three loaders and
key generation fail rather than produce a handle, and every handle any
of them does produce references exactly the record that was
supplied. -/
theorem no_null_handle :
    rsa_key_from_raw none = .error .invalidArgument ∧
    (∀ o k, rsa_key_from_raw o = .ok k → o = some k.m_rsa) ∧
    (∀ err o k, rsa_key_from_shared err o = .ok k → o = some k.m_rsa) ∧
    rsa_key_default none = .error .allocationError ∧
    (∀ blob k, from_private_key blob = .ok k →
      pemReadRSAPrivateKey blob = some k.m_rsa) ∧
    (∀ blob k, from_public_key blob = .ok k →
      pemReadRSAPublicKey blob = some k.m_rsa) ∧
    (∀ blob k, from_certificate_public_key blob = .ok k →
      pemReadRSA_PUBKEY blob = some k.m_rsa) ∧
    generate_private_key none = .error .keyGenerationError ∧
    (∀ gen k, generate_private_key gen = .ok k → gen = some k.m_rsa) := by
  refine ⟨rfl, ?_, rsa_key_from_shared_ok, rfl, ?_, ?_, ?_, rfl, ?_⟩
  · intro o k h
    cases o with
    | none => cases h
    | some ptr =>
      cases h
      rfl
  · intro blob k h
    exact rsa_key_from_shared_ok _ _ k h
  · intro blob k h
    exact rsa_key_from_shared_ok _ _ k h
  · intro blob k h
    exact rsa_key_from_shared_ok _ _ k h
  · intro gen k h
    exact rsa_key_from_shared_ok _ _ k h

/-- C8: every loader fails with `KeyDecodingError` — never returning a
handle — when the bytes are malformed for the requested format, when
they are in one of the other two formats (no auto-detection; in
particular private-key-format bytes given to the public-key-only loader
fail), or when passphrase decryption fails. -/
theorem loader_rejects_mismatch :
    (∀ blob : PemBlob, blob.wellFormed = false →
      from_private_key blob = .error .keyDecodingError ∧
      from_public_key blob = .error .keyDecodingError ∧
      from_certificate_public_key blob = .error .keyDecodingError) ∧
    (∀ blob : PemBlob, blob.format ≠ .privateKey →
      from_private_key blob = .error .keyDecodingError) ∧
    (∀ blob : PemBlob, blob.format ≠ .publicKey →
      from_public_key blob = .error .keyDecodingError) ∧
    (∀ blob : PemBlob, blob.format ≠ .certPublicKey →
      from_certificate_public_key blob = .error .keyDecodingError) ∧
    (∀ blob : PemBlob, blob.format = .privateKey →
      from_public_key blob = .error .keyDecodingError) ∧
    (∀ blob : PemBlob, blob.encrypted = true → blob.passphraseOk = false →
      from_private_key blob = .error .keyDecodingError) := by
  refine ⟨?_, ?_, ?_, ?_, ?_, ?_⟩
  · intro blob hw
    refine ⟨?_, ?_, ?_⟩ <;>
      simp [from_private_key, from_public_key, from_certificate_public_key,
        pemReadRSAPrivateKey, pemReadRSAPublicKey, pemReadRSA_PUBKEY,
        rsa_key_from_shared, hw]
  · intro blob hf
    simp [from_private_key, pemReadRSAPrivateKey, rsa_key_from_shared, hf]
  · intro blob hf
    simp [from_public_key, pemReadRSAPublicKey, rsa_key_from_shared, hf]
  · intro blob hf
    simp [from_certificate_public_key, pemReadRSA_PUBKEY,
      rsa_key_from_shared, hf]
  · intro blob hf
    have : blob.format ≠ .publicKey := by
      rw [hf]
      intro hcon
      cases hcon
    simp [from_public_key, pemReadRSAPublicKey, rsa_key_from_shared, this]
  · intro blob henc hpass
    simp [from_private_key, pemReadRSAPrivateKey, rsa_key_from_shared,
      henc, hpass]

/-- The private material and its internal consistency that
`RSA_check_key` validates: all private components present, the modulus
the product of the primes, the exponents mutually inverse, and the CRT
exponents consistent with `d`. -/
def RSARecord.consistentParams (r : RSARecord) : Prop :=
  ∃ d p q dp dq, r.d = some d ∧ r.p = some p ∧ r.q = some q ∧
    r.dmp1 = some dp ∧ r.dmq1 = some dq ∧
    r.n = p * q ∧ r.e * d ≡ 1 [MOD (p - 1) * (q - 1)] ∧
    dp = d % (p - 1) ∧ dq = d % (q - 1)

theorem RSA_check_key_pos_iff (r : RSARecord) :
    RSA_check_key r > 0 ↔ r.consistentParams := by
  unfold RSA_check_key RSARecord.consistentParams
  cases hd : r.d <;> cases hp : r.p <;> cases hq : r.q <;>
    cases hdp : r.dmp1 <;> cases hdq : r.dmq1 <;>
    simp [Nat.ModEq]
  split
  · simp_all
  · simp_all

/-- C9: `check()` succeeds exactly when the handle carries private
material whose parameters are internally consistent; on a public-only
handle (no private exponent) it fails with `InvalidKeyState`. -/
theorem check_ok_iff_consistent_private (r : RSARecord) :
    (check r = .ok () ↔ r.consistentParams) ∧
    (r.d = none → check r = .error .invalidKeyState) := by
  have hkey := RSA_check_key_pos_iff r
  constructor
  · unfold check
    constructor
    · intro h
      by_cases hc : RSA_check_key r > 0
      · exact hkey.mp hc
      · rw [if_neg hc] at h
        cases h
    · intro h
      rw [if_pos (hkey.mpr h)]
  · intro hd
    have hneg : RSA_check_key r = -1 := by
      unfold RSA_check_key
      rw [hd]
    unfold check
    rw [hneg]
    rfl

/-- C10: `disable_blinding` never fails — it performs no error check
and always returns the updated record — while `enable_blinding` can
fail with an allocation `OperationError`. -/
theorem disable_blinding_total (h : Heap) (k : rsa_key) :
    disable_blinding h k
        = .ok (heapUpdate h k.m_rsa { h k.m_rsa with blinding := false }) ∧
      enable_blinding false h k = .error .operationError :=
  ⟨rfl, rfl⟩

end Cryptoplus
